import Mathlib

/-!
Verification of the Inteliquent trunk-groups Checkmk plugin
(`agent_based/inteliquent_trunk_groups.py`) against its specification.

The Python module is shallowly embedded: JSON-decoded Python values become the
inductive `PyVal`, dictionaries become association lists with Python's
insert-or-update assignment semantics, numbers (int/float) are modelled as
exact rationals, and code that can raise returns `Except` (for the parser) or
records the raised exception alongside the outputs yielded so far (for the
generator-style check function).
-/

/-- A Python value as produced by `json.loads` (and the derived trunk dicts).
JSON object keys are always strings, so dictionaries are string-keyed
association lists.  `num` covers both `int` and `float`, modelled exactly as
rationals. -/
inductive PyVal where
  | str : String → PyVal
  | num : ℚ → PyVal
  | bool : Bool → PyVal
  | pynone : PyVal
  | list : List PyVal → PyVal
  | dict : List (String × PyVal) → PyVal

/-- A Python `Dict[str, Any]`. -/
abbrev Dict := List (String × PyVal)

/-- The plugin's `Section` type: `Mapping[str, Dict[str, Any]]` keyed by
`customerTrunkGroupName`. -/
abbrev Snap := List (String × Dict)

/-- Python dictionary lookup / `.get`: first matching key (keys are unique in
every dict the program builds, so first match equals the stored value). -/
def dlookup {α : Type} : List (String × α) → String → Option α
  | [], _ => none
  | (k, v) :: rest, k' => if k = k' then some v else dlookup rest k'

/-- Python dictionary assignment `d[k] = v`: replaces the value at an existing
key in place (keeping its position), otherwise appends the new entry at the
end, exactly as Python's insertion-ordered dicts do. -/
def updSet {α : Type} : List (String × α) → String → α → List (String × α)
  | [], k, v => [(k, v)]
  | (k', v') :: rest, k, v =>
      if k' = k then (k, v) :: rest else (k', v') :: updSet rest k v

/-- Unicode code points for which Python's `str.isspace` is true; this is the
set `str.split()` / `str.strip()` split and strip on. -/
def pyIsSpace (c : Char) : Bool :=
  let n := c.toNat
  (9 ≤ n && n ≤ 13) || (28 ≤ n && n ≤ 31) || n == 32 || n == 133 || n == 160 ||
    n == 5760 || (8192 ≤ n && n ≤ 8202) || n == 8232 || n == 8233 ||
    n == 8239 || n == 8287 || n == 12288

/-- Python `text.lower()`.  Modelled with ASCII case mapping (`Char.toLower`); the
only comparison the program makes is against the ASCII literal
`"inservice"`, whose letters have no non-ASCII single-character uppercase
preimage under Python's full Unicode lowering, so the restriction does not
change any comparison the program performs. -/
def pyLower (s : String) : String := String.mk (s.data.map Char.toLower)

/-- The helper `_normalize_status`: `"".join(text.lower().split())` — lower-case, then
remove every whitespace character (joining the whitespace-split words deletes
exactly the whitespace characters). -/
def _normalize_status (s : String) : String :=
  String.mk ((pyLower s).data.filter (fun c => !(pyIsSpace c)))

/-- Python `not name.strip()` for a string: true iff every character is whitespace
(so stripping leaves the empty, falsy string). -/
def pyBlank (s : String) : Bool := s.data.all pyIsSpace

/-- Python truthiness (`bool(v)`) for the values in our universe. -/
def pyTruthy : PyVal → Bool
  | .str s => !s.isEmpty
  | .num q => !(q == 0)
  | .bool b => b
  | .pynone => false
  | .list l => !l.isEmpty
  | .dict d => !d.isEmpty

/-- Python `v is None`. -/
def isNoneV : PyVal → Bool
  | .pynone => true
  | _ => false

/-- Python `isinstance(v, (int, float))`.  Python's `bool` is a subclass of `int`,
so booleans count as numeric. -/
def pyIsNum : PyVal → Bool
  | .num _ => true
  | .bool _ => true
  | _ => false

/-- The numeric value of a value for which `pyIsNum` holds (`float(v)` on
ints, floats and bools). -/
def pyNumVal : PyVal → ℚ
  | .num q => q
  | .bool b => if b then 1 else 0
  | _ => 0

/-- Is the value a mapping? -/
def isDictVal : PyVal → Bool
  | .dict _ => true
  | _ => false

/-- Split a character list at the first separator character, if any. -/
def splitOnce (sep : Char → Bool) : List Char → List Char × Option (List Char)
  | [] => ([], none)
  | c :: rest =>
      if sep c then ([], some rest)
      else
        let p := splitOnce sep rest
        (c :: p.1, p.2)

/-- Numeric value of a digit string. -/
def digitsNat (cs : List Char) : ℕ :=
  cs.foldl (fun a c => a * 10 + (c.toNat - 48)) 0

/-- An optional leading sign; returns (negative?, rest). -/
def parseSign : List Char → Bool × List Char
  | '+' :: r => (false, r)
  | '-' :: r => (true, r)
  | r => (false, r)

/-- Parse an unsigned Python float literal `digits[.digits][(e|E)[±]digits]`
(at least one digit around the point) into an exact rational. -/
def parseUnsignedDec (cs : List Char) : Option ℚ :=
  let mp := splitOnce (fun c => c == 'e' || c == 'E') cs
  let ip := (splitOnce (fun c => c == '.') mp.1).1
  let fp := ((splitOnce (fun c => c == '.') mp.1).2).getD []
  if ip.all Char.isDigit && fp.all Char.isDigit && (!ip.isEmpty || !fp.isEmpty) then
    let base : ℚ := (digitsNat ip : ℚ) + (digitsNat fp : ℚ) / (10 : ℚ) ^ fp.length
    match mp.2 with
    | none => some base
    | some ecs =>
        let sp := parseSign ecs
        if !sp.2.isEmpty && sp.2.all Char.isDigit then
          some (if sp.1 then base / (10 : ℚ) ^ digitsNat sp.2
                else base * (10 : ℚ) ^ digitsNat sp.2)
        else none
  else none

/-- Python `float(s)` on a string: strip whitespace, optional sign, then a
decimal literal.  `inf`/`nan` and digit-group underscores are not modelled
(they cannot be represented as rationals / do not occur in this API's data);
for such strings the model reports a failed coercion. -/
def floatOfStr (s : String) : Option ℚ :=
  let cs := ((s.data.dropWhile pyIsSpace).reverse.dropWhile pyIsSpace).reverse
  let sp := parseSign cs
  match parseUnsignedDec sp.2 with
  | none => none
  | some q => some (if sp.1 then -q else q)

/-- Python `float(v)`: succeeds on ints, floats, bools and numeric strings,
raises (here: `none`) on everything else. -/
def pyFloat : PyVal → Option ℚ
  | .num q => some q
  | .bool b => some (if b then 1 else 0)
  | .str s => floatOfStr s
  | _ => none

/-- Formatting `f"{q:.1f}"`: fixed-point with one decimal digit.  Rounding at exact
half-way points uses round-half-up rather than the float formatter's
round-half-even; no claim depends on the rendered digits. -/
def fmt1 (q : ℚ) : String :=
  let n : ℤ := round (q * 10)
  let sgn := if n < 0 then "-" else ""
  sgn ++ toString (n.natAbs / 10) ++ "." ++ toString (n.natAbs % 10)

/-- Formatting `f"{q:.0f}"`: rounded to an integer (same half-way caveat as `fmt1`). -/
def fmt0 (q : ℚ) : String :=
  let n : ℤ := round q
  let sgn := if n < 0 then "-" else ""
  sgn ++ toString n.natAbs

/-- One element of the iterable handed to Python's `dict(...)` constructor,
turned into a key-value entry.  `dict()` accepts length-2 sequences
(two-element lists, two-character strings, two-key dicts iterate as their
keys); a wrong length raises `ValueError`, a non-iterable element or an
unhashable key raises `TypeError`.  A hashable non-string key (number, bool,
None) yields an entry this plugin can never observe — every lookup it performs
uses a string key — so such entries are omitted (`ok none`) rather than
represented. -/
def pairOf : PyVal → Except String (Option (String × PyVal))
  | .str s =>
      match s.data with
      | [c1, c2] => .ok (some (String.mk [c1], PyVal.str (String.mk [c2])))
      | _ => .error "ValueError"
  | .list [PyVal.str k, v] => .ok (some (k, v))
  | .list [PyVal.num _, _] => .ok none
  | .list [PyVal.bool _, _] => .ok none
  | .list [PyVal.pynone, _] => .ok none
  | .list [_, _] => .error "TypeError"
  | .list _ => .error "ValueError"
  | .dict [(k1, _), (k2, _)] => .ok (some (k1, PyVal.str k2))
  | .dict _ => .error "ValueError"
  | _ => .error "TypeError"

/-- Fold the elements of a list given to `dict(...)` into a dict. -/
def pyDictPairs : List PyVal → Dict → Except String Dict
  | [], acc => .ok acc
  | e :: rest, acc =>
      match pairOf e with
      | .error err => .error err
      | .ok none => pyDictPairs rest acc
      | .ok (some (k, v)) => pyDictPairs rest (updSet acc k v)

/-- Python `dict(v)`: copies a mapping, folds an iterable of pairs, and
raises `TypeError` on non-iterables (numbers, bools, None).  A non-empty
string iterates into its one-character substrings, each of length 1, which
raises `ValueError`. -/
def pyDict : PyVal → Except String Dict
  | .dict d => .ok d
  | .list l => pyDictPairs l []
  | .str s => if s.isEmpty then .ok [] else .error "ValueError"
  | _ => .error "TypeError"

/-- The inner loop of `parse_inteliquent_trunk_groups`: for each
`(trunk_id, trunk_data)` of one company, `trunk = dict(trunk_data)` (which may
raise), `trunk["company"] = company`, then insert `by_name[name] = trunk`
unless `trunk.get("customerTrunkGroupName")` is not a string or is blank. -/
def insTrunks (company : String) : List (String × PyVal) → Snap → Except String Snap
  | [], snap => .ok snap
  | (_, td) :: rest, snap =>
      match pyDict td with
      | .error e => .error e
      | .ok d =>
          let trunk := updSet d "company" (PyVal.str company)
          match dlookup trunk "customerTrunkGroupName" with
          | some (PyVal.str n) =>
              if pyBlank n then insTrunks company rest snap
              else insTrunks company rest (updSet snap n trunk)
          | _ => insTrunks company rest snap

/-- The outer loop of `parse_inteliquent_trunk_groups`: iterate the
`(company, trunks)` items of the payload, skipping companies whose value is
not a mapping. -/
def insCompanies : List (String × PyVal) → Snap → Except String Snap
  | [], snap => .ok snap
  | (company, trunks) :: rest, snap =>
      match trunks with
      | .dict tds =>
          match insTrunks company tds snap with
          | .error e => .error e
          | .ok snap' => insCompanies rest snap'
      | _ => insCompanies rest snap

/-- The body of `parse_inteliquent_trunk_groups` after `json.loads`:
`payload.items()` raises `AttributeError` when the decoded payload is not a
mapping (this line sits outside the `try` block). -/
def parsePayload : PyVal → Except String Snap
  | .dict cos => insCompanies cos []
  | _ => .error "AttributeError"

/-- The join `"".join(row[0] for row in string_table if row)`. -/
def joinedRaw (st : List (List String)) : String :=
  String.join ((st.filter (fun r => !r.isEmpty)).map (fun r => r.headD ""))

/-- The parser `parse_inteliquent_trunk_groups`.  Here `json.loads` is an external library
call, passed in as `decode : String → Option PyVal` (`none` models a raised
decoding error; note `json.loads "" = none` for every faithful decoder).  The
`try` block covers the join and the decode; a decode failure yields the empty
Snapshot.  The subsequent iteration is outside the `try` and may raise. -/
def parse_inteliquent_trunk_groups (decode : String → Option PyVal)
    (string_table : List (List String)) : Except String Snap :=
  if string_table.isEmpty then .ok []
  else
    match decode (joinedRaw string_table) with
    | none => .ok []
    | some payload => parsePayload payload

/-- The test `"customerTrunkGroupName" in obj`. -/
def hasNameKey (d : Dict) : Bool := d.any (fun p => p.1 == "customerTrunkGroupName")

/-- The line `if company: trunk["company"] = company` — the company parameter of
`_extract_trunks` is attached only when truthy (not `None`, not `""`). -/
def decorateOpt (company : Option String) (d : Dict) : Dict :=
  match company with
  | some c => if c.isEmpty then d else updSet d "company" (PyVal.str c)
  | none => d

mutual

/-- The helper `_extract_trunks`: structural recursion that yields every dict containing
the identifying key, tagging it with the nearest enclosing mapping key as
`company`.  Defined by the module but never called by the parser. -/
def _extract_trunks (company : Option String) : PyVal → List Dict
  | .dict d =>
      if hasNameKey d then [decorateOpt company d]
      else extractEntries d
  | .list l => extractItems company l
  | _ => []

/-- Recurse into the entries of a non-leaf dict, passing each key down as the
new company. -/
def extractEntries : List (String × PyVal) → List Dict
  | [] => []
  | (k, v) :: rest => _extract_trunks (some k) v ++ extractEntries rest

/-- Recurse into the items of a list, keeping the current company. -/
def extractItems (company : Option String) : List PyVal → List Dict
  | [] => []
  | v :: rest => _extract_trunks company v ++ extractItems company rest

end

/-- Discovery `discover_inteliquent_trunk_groups`: one `Service(item=name)` per key, in
`sorted` order (Python string comparison is code-point lexicographic, as is
Lean's `String` order). -/
def discover_inteliquent_trunk_groups (sec : Snap) : List String :=
  (sec.map Prod.fst).mergeSort (fun a b => decide (a ≤ b))

/-- A check verdict: `State.OK / WARN / CRIT / UNKNOWN`. -/
inductive Verdict where
  | ok | warn | crit | unknown
deriving DecidableEq

/-- One value yielded by the check generator: a `Result` (state + summary) or
a `Metric`.  The `details` strings are display-only decoration of the same
`Result`s and are not modelled. -/
inductive Output where
  | result : Verdict → String → Output
  | metric : String → ℚ → Output
deriving DecidableEq

/-- A finished run of the check generator: the values yielded, and the
exception that ended it, if one was raised. -/
structure CheckRun where
  outputs : List Output
  raised : Option String
deriving DecidableEq

/-- The status `Result`: OK when the normalized status text equals
`"inservice"`, CRIT for any other string, UNKNOWN when the field is absent or
not a string; the summary echoes the original text. -/
def statusOutput (data : Dict) : Output :=
  match dlookup data "status" with
  | some (PyVal.str s) =>
      .result (if _normalize_status s = "inservice" then Verdict.ok else Verdict.crit)
        ("Status: " ++ s)
  | _ => .result Verdict.unknown "Status: missing"

/-- The line `util = data.get("utilization") or \x7b\x7d`. -/
def utilValue (data : Dict) : PyVal :=
  match dlookup data "utilization" with
  | none => PyVal.dict []
  | some v => if pyTruthy v then v else PyVal.dict []

/-- The three "always yield metrics if values are present" lines: a Metric
for each of `inCalls`, `outCalls`, `capacity` that is numeric. -/
def numMetrics (u : Dict) : List Output :=
  (if pyIsNum ((dlookup u "inCalls").getD PyVal.pynone) then
      [Output.metric "inCalls" (pyNumVal ((dlookup u "inCalls").getD PyVal.pynone))]
    else []) ++
  (if pyIsNum ((dlookup u "outCalls").getD PyVal.pynone) then
      [Output.metric "outCalls" (pyNumVal ((dlookup u "outCalls").getD PyVal.pynone))]
    else []) ++
  (if pyIsNum ((dlookup u "capacity").getD PyVal.pynone) then
      [Output.metric "capacity" (pyNumVal ((dlookup u "capacity").getD PyVal.pynone))]
    else [])

/-- Thresholds `if pct >= 90.0: CRIT elif pct >= 80.0: WARN else OK`. -/
def utilState (pct : ℚ) : Verdict :=
  if pct ≥ 90 then Verdict.crit else if pct ≥ 80 then Verdict.warn else Verdict.ok

/-- The utilization result summary: the percentage alone for OK, percentage
plus `used/capacity` otherwise. -/
def utilSummary (pct used capf : ℚ) : String :=
  if utilState pct = Verdict.ok then "Utilization: " ++ fmt1 pct ++ "%"
  else "Utilization: " ++ fmt1 pct ++ "% (" ++ fmt0 used ++ "/" ++ fmt0 capf ++ ")"

/-- The trailing `active_sessions` Metric, yielded only at the very end of the
generator when `activeSessionCount` is numeric. -/
def activeTail (data : Dict) : List Output :=
  if pyIsNum ((dlookup data "activeSessionCount").getD PyVal.pynone) then
    [Output.metric "active_sessions"
      (pyNumVal ((dlookup data "activeSessionCount").getD PyVal.pynone))]
  else []

/-- The check `check_inteliquent_trunk_groups`.  Mirrors the generator line by line:
no-data guard, status result, `util = data.get("utilization") or {}` (calling
`.get` on a truthy non-mapping raises `AttributeError`), the three metrics,
the missing-values guard, the `float` coercions under `try`, the
`utilization_pct` metric, the classified utilization result, and finally the
`active_sessions` metric. -/
def check_inteliquent_trunk_groups (item : String) (sec : Snap) : CheckRun :=
  match dlookup sec item with
  | none => ⟨[.result Verdict.unknown "No data for item"], none⟩
  | some data =>
    if data.isEmpty then ⟨[.result Verdict.unknown "No data for item"], none⟩
    else
      let s := statusOutput data
      match utilValue data with
      | .dict u =>
        let inC := (dlookup u "inCalls").getD PyVal.pynone
        let outC := (dlookup u "outCalls").getD PyVal.pynone
        let cap := (dlookup u "capacity").getD PyVal.pynone
        let ms := numMetrics u
        if isNoneV inC || isNoneV outC || isNoneV cap || !pyTruthy cap then
          ⟨s :: ms ++ [.result Verdict.unknown "Utilization: missing"], none⟩
        else
          match pyFloat inC, pyFloat outC, pyFloat cap with
          | some i, some o, some c =>
            let used := i + o
            let pct := if c == 0 then 0 else 100 * used / c
            ⟨s :: ms ++ [.metric "utilization_pct" pct,
                .result (utilState pct) (utilSummary pct used c)] ++ activeTail data,
              none⟩
          | _, _, _ =>
            ⟨s :: ms ++ [.result Verdict.unknown "Utilization: invalid values"], none⟩
      | _ => ⟨[s], some "AttributeError"⟩

/-- Insert a list of (name, trunk) pairs into a Snapshot in order, with
Python's last-writer-wins assignment. -/
def insAll : List (String × Dict) → Snap → Snap
  | [], snap => snap
  | p :: rest, snap => insAll rest (updSet snap p.1 p.2)

/-- The last value written for a name in a stream of (name, trunk) pairs. -/
def lastWrite : List (String × Dict) → String → Option Dict
  | [], _ => none
  | p :: rest, n =>
      match lastWrite rest n with
      | some t => some t
      | none => if p.1 = n then some p.2 else none

/-- The (name, decorated trunk) pairs one company's trunk mapping contributes
to the Snapshot, in iteration order: `dict(trunk_data)` with `company` set,
keyed by its `customerTrunkGroupName` when that is a non-blank string.
Entries whose `dict(...)` call would raise are skipped here; the parser run
lemmas only equate this stream with the parser when the parser did not
raise. -/
def cands1 (company : String) : List (String × PyVal) → List (String × Dict)
  | [] => []
  | (_, td) :: rest =>
      match pyDict td with
      | .error _ => cands1 company rest
      | .ok d =>
          let trunk := updSet d "company" (PyVal.str company)
          match dlookup trunk "customerTrunkGroupName" with
          | some (PyVal.str n) =>
              if pyBlank n then cands1 company rest
              else (n, trunk) :: cands1 company rest
          | _ => cands1 company rest

/-- The full candidate stream of a payload: companies in order, skipping
top-level values that are not mappings. -/
def cands : List (String × PyVal) → List (String × Dict)
  | [] => []
  | (company, trunks) :: rest =>
      match trunks with
      | .dict tds => cands1 company tds ++ cands rest
      | _ => cands rest

/-- Every top-level value is a mapping whose values are all mappings (the
well-formed two-level payload shape). -/
def wfTwoLevel (cos : List (String × PyVal)) : Bool :=
  cos.all (fun p =>
    match p.2 with
    | .dict tds => tds.all (fun q => isDictVal q.2)
    | _ => false)

/-- Every second-level value under a mapping-valued top-level key is itself a
mapping (top-level non-mapping values are allowed and skipped). -/
def recordsAreDicts (cos : List (String × PyVal)) : Bool :=
  cos.all (fun p =>
    match p.2 with
    | .dict tds => tds.all (fun q => isDictVal q.2)
    | _ => true)

/-- A decoder that fails on every blob (any unparseable input). -/
def decodeNone : String → Option PyVal := fun _ => none

/-- Fixture: a record whose status is the canonical in-service text. -/
def dataW1 : Dict := [("status", PyVal.str "In Service")]

/-- Fixture section for the status claim. -/
def secW1 : Snap := [("T", dataW1)]

/-- Fixture: utilization mapping 70+10 of 100 (the 80.0% boundary). -/
def uW2 : Dict :=
  [("inCalls", PyVal.num 70), ("outCalls", PyVal.num 10), ("capacity", PyVal.num 100)]

/-- Fixture: a record holding `uW2`. -/
def dataW2 : Dict := [("utilization", PyVal.dict uW2)]

/-- Fixture section for the 80.0% boundary. -/
def secW2 : Snap := [("T", dataW2)]

/-- Fixture: utilization mapping 85+5 of 100 (the 90.0% boundary). -/
def uW2b : Dict :=
  [("inCalls", PyVal.num 85), ("outCalls", PyVal.num 5), ("capacity", PyVal.num 100)]

/-- Fixture: a record holding `uW2b`. -/
def dataW2b : Dict := [("utilization", PyVal.dict uW2b)]

/-- Fixture section for the 90.0% boundary. -/
def secW2b : Snap := [("T", dataW2b)]

/-- Fixture: a record whose `utilization` field is a truthy non-mapping. -/
def dataBug : Dict :=
  [("status", PyVal.str "In Service"), ("utilization", PyVal.str "bogus")]

/-- Fixture section for the non-mapping-utilization record. -/
def secBug : Snap := [("T", dataBug)]

/-- Fixture payload: two companies, one trunk each, distinct names. -/
def cosW5 : List (String × PyVal) :=
  [("co1", PyVal.dict [("t1", PyVal.dict
      [("customerTrunkGroupName", PyVal.str "A"), ("capacity", PyVal.num 10)])]),
   ("co2", PyVal.dict [("t2", PyVal.dict
      [("customerTrunkGroupName", PyVal.str "B")])])]

/-- Fixture payload: two records in different companies sharing the name
`"X"`. -/
def cosW6 : List (String × PyVal) :=
  [("co1", PyVal.dict [("t1", PyVal.dict
      [("customerTrunkGroupName", PyVal.str "X"), ("v", PyVal.num 1)])]),
   ("co2", PyVal.dict [("t2", PyVal.dict
      [("customerTrunkGroupName", PyVal.str "X"), ("v", PyVal.num 2)])])]

/-- Fixture: a record with a numeric `activeSessionCount` but no utilization
data at all. -/
def dataC7 : Dict := [("activeSessionCount", PyVal.num 5)]

/-- Fixture section for the active-session observation claim. -/
def secC7 : Snap := [("T", dataC7)]

/-- Fixture: a utilization mapping with numeric `inCalls` but no `outCalls`. -/
def uW8 : Dict := [("inCalls", PyVal.num 3)]

/-- Fixture: a record holding `uW8`. -/
def dataW8 : Dict := [("utilization", PyVal.dict uW8)]

/-- Fixture section for the missing-utilization claim. -/
def secW8 : Snap := [("T", dataW8)]

/-- Fixture: a utilization mapping whose `inCalls` is a non-numeric string
while `outCalls` and `capacity` are numeric and the capacity truthy — the
missing-values guard passes but `float("abc")` raises. -/
def uW7i : Dict :=
  [("inCalls", PyVal.str "abc"), ("outCalls", PyVal.num 1), ("capacity", PyVal.num 10)]

/-- Fixture: a record holding `uW7i` together with a numeric
`activeSessionCount`. -/
def dataW7i : Dict :=
  [("utilization", PyVal.dict uW7i), ("activeSessionCount", PyVal.num 4)]

/-- Fixture section for the invalid-values branch. -/
def secW7i : Snap := [("T", dataW7i)]

/-- Fixture sections for discovery: the same keys in two iteration orders. -/
def secW9 : Snap := [("b", dataW1), ("a", dataW2)]

/-- The same mapping content as `secW9` with the opposite iteration order. -/
def secW9r : Snap := [("a", dataW2), ("b", dataW1)]

/-- The record the parser produces for trunk "A" of `cosW5`. -/
def trunkW5A : Dict :=
  [("customerTrunkGroupName", PyVal.str "A"), ("capacity", PyVal.num 10),
   ("company", PyVal.str "co1")]

/-- The Snapshot the parser produces from `cosW5`. -/
def snapW5 : Snap :=
  [("A", trunkW5A),
   ("B", [("customerTrunkGroupName", PyVal.str "B"), ("company", PyVal.str "co2")])]

/-- The record the parser keeps for the duplicated name of `cosW6`: the last
one encountered. -/
def trunkW6 : Dict :=
  [("customerTrunkGroupName", PyVal.str "X"), ("v", PyVal.num 2),
   ("company", PyVal.str "co2")]

/-- The Snapshot the parser produces from `cosW6`. -/
def snapW6 : Snap := [("X", trunkW6)]

/-- Fixture payload: a trunk record nested three levels deep (company →
intermediate key → trunk-id → record). -/
def deepPayload : PyVal :=
  PyVal.dict [("co", PyVal.dict [("mid", PyVal.dict [("t",
    PyVal.dict [("customerTrunkGroupName", PyVal.str "X")])])])]

/-- Looking up the key just assigned returns the assigned value. -/
theorem dlookup_updSet_self {α : Type} (d : List (String × α)) (k : String) (v : α) :
    dlookup (updSet d k v) k = some v := by
  induction d with
  | nil => simp [updSet, dlookup]
  | cons p rest ih =>
    obtain ⟨k', v'⟩ := p
    by_cases h : k' = k
    · simp [updSet, h, dlookup]
    · simp [updSet, h, dlookup, ih]

/-- Assignment does not change the value at other keys. -/
theorem dlookup_updSet_ne {α : Type} (d : List (String × α)) (k k' : String) (v : α)
    (h : k' ≠ k) : dlookup (updSet d k v) k' = dlookup d k' := by
  induction d with
  | nil =>
    have h' : ¬ k = k' := fun hh => h hh.symm
    simp [updSet, dlookup, h']
  | cons p rest ih =>
    obtain ⟨k₀, v₀⟩ := p
    by_cases h0 : k₀ = k
    · subst h0
      have h' : ¬ k₀ = k' := fun hh => h (hh.symm)
      simp [updSet, dlookup, h']
    · simp only [updSet, h0, if_false, dlookup, ih]

/-- The keys after an assignment: unchanged when the key was present,
appended otherwise. -/
theorem keys_updSet {α : Type} (d : List (String × α)) (k : String) (v : α) :
    (updSet d k v).map Prod.fst =
      if k ∈ d.map Prod.fst then d.map Prod.fst else d.map Prod.fst ++ [k] := by
  induction d with
  | nil => simp [updSet]
  | cons p rest ih =>
    obtain ⟨k₀, v₀⟩ := p
    by_cases h0 : k₀ = k
    · simp [updSet, h0]
    · have hne : ¬ k = k₀ := fun hh => h0 hh.symm
      by_cases hm : k ∈ rest.map Prod.fst
      · simp [updSet, h0, ih, hm, hne]
      · simp [updSet, h0, ih, hm, hne]

/-- Assignment preserves distinctness of keys. -/
theorem nodup_keys_updSet {α : Type} (d : List (String × α)) (k : String) (v : α)
    (h : (d.map Prod.fst).Nodup) : ((updSet d k v).map Prod.fst).Nodup := by
  rw [keys_updSet]
  by_cases hm : k ∈ d.map Prod.fst
  · simpa [hm]
  · simp [hm, List.nodup_append, h]

/-- A lookup succeeds exactly when the key occurs in the dict. -/
theorem dlookup_isSome_iff_mem {α : Type} (d : List (String × α)) (n : String) :
    (dlookup d n).isSome ↔ n ∈ d.map Prod.fst := by
  induction d with
  | nil => simp [dlookup]
  | cons p rest ih =>
    obtain ⟨k, v⟩ := p
    by_cases h : k = n
    · simp [dlookup, h]
    · have h' : ¬ n = k := fun hh => h hh.symm
      simp [dlookup, h, ih, h']

/-- Folding a stream of assignments: the result of a lookup is the last value
written for that key, or the original binding when the stream never writes
it. -/
theorem dlookup_insAll (l : List (String × Dict)) (snap : Snap) (n : String) :
    dlookup (insAll l snap) n =
      match lastWrite l n with
      | some t => some t
      | none => dlookup snap n := by
  induction l generalizing snap with
  | nil => simp [insAll, lastWrite]
  | cons p rest ih =>
    simp only [insAll, lastWrite, ih]
    cases hlw : lastWrite rest n with
    | some t => simp
    | none =>
      by_cases h : p.1 = n
      · subst h
        simp [dlookup_updSet_self]
      · simp [h, dlookup_updSet_ne _ _ _ _ (fun hh => h hh.symm)]

/-- Scanning backwards: `lastWrite` is the first match when scanning the stream backwards. -/
theorem lastWrite_eq_find_reverse (l : List (String × Dict)) (n : String) :
    lastWrite l n = (l.reverse.find? (fun p => p.1 == n)).map Prod.snd := by
  induction l with
  | nil => simp [lastWrite]
  | cons p rest ih =>
    simp only [lastWrite, ih, List.reverse_cons, List.find?_append]
    cases hf : rest.reverse.find? (fun p => p.1 == n) with
    | some q => simp [Option.orElse]
    | none =>
      by_cases h : p.1 = n
      · simp [Option.orElse, List.find?, h]
      · have hb : (p.1 == n) = false := by simp [h]
        simp [Option.orElse, List.find?, hb, h]

/-- Keys stay distinct while folding assignments. -/
theorem nodup_keys_insAll (l : List (String × Dict)) (snap : Snap)
    (h : (snap.map Prod.fst).Nodup) : ((insAll l snap).map Prod.fst).Nodup := by
  induction l generalizing snap with
  | nil => simpa [insAll]
  | cons p rest ih => exact ih _ (nodup_keys_updSet _ _ _ h)

/-- Folding assignments over a concatenation factors into two folds. -/
theorem insAll_append (l₁ l₂ : List (String × Dict)) (snap : Snap) :
    insAll (l₁ ++ l₂) snap = insAll l₂ (insAll l₁ snap) := by
  induction l₁ generalizing snap with
  | nil => simp [insAll]
  | cons p rest ih => simp [insAll, ih]

/-- When the inner parser loop finishes without raising, it performed exactly
the assignments of that company's candidate stream. -/
theorem insTrunks_ok (company : String) (tds : List (String × PyVal)) (snap snap' : Snap)
    (h : insTrunks company tds snap = .ok snap') :
    snap' = insAll (cands1 company tds) snap := by
  induction tds generalizing snap with
  | nil =>
    simp [insTrunks] at h
    simp [cands1, insAll, h]
  | cons q rest ih =>
    obtain ⟨tid, td⟩ := q
    cases hd : pyDict td with
    | error e => simp [insTrunks, hd] at h
    | ok d =>
      cases hn : dlookup (updSet d "company" (PyVal.str company)) "customerTrunkGroupName" with
      | none =>
        simp only [insTrunks, cands1, hd, hn] at h ⊢
        exact ih _ h
      | some v =>
        cases v with
        | str n =>
          cases hb : pyBlank n with
          | true =>
            simp only [insTrunks, cands1, hd, hn, hb, if_true] at h ⊢
            exact ih _ h
          | false =>
            simp only [insTrunks, cands1, hd, hn, hb, Bool.false_eq_true, if_false,
              insAll] at h ⊢
            exact ih _ h
        | num q =>
          simp only [insTrunks, cands1, hd, hn] at h ⊢; exact ih _ h
        | bool b =>
          simp only [insTrunks, cands1, hd, hn] at h ⊢; exact ih _ h
        | pynone =>
          simp only [insTrunks, cands1, hd, hn] at h ⊢; exact ih _ h
        | list l =>
          simp only [insTrunks, cands1, hd, hn] at h ⊢; exact ih _ h
        | dict dd =>
          simp only [insTrunks, cands1, hd, hn] at h ⊢; exact ih _ h

/-- When every trunk value of a company is a mapping, the inner loop cannot
raise, and computes the fold of the candidate stream. -/
theorem insTrunks_of_dicts (company : String) (tds : List (String × PyVal)) (snap : Snap)
    (h : ∀ q ∈ tds, isDictVal q.2 = true) :
    insTrunks company tds snap = .ok (insAll (cands1 company tds) snap) := by
  induction tds generalizing snap with
  | nil => simp [insTrunks, cands1, insAll]
  | cons q rest ih =>
    obtain ⟨tid, td⟩ := q
    have hhead : isDictVal td = true := h (tid, td) (List.mem_cons_self _ _)
    obtain ⟨r, rfl⟩ : ∃ r, td = PyVal.dict r := by
      cases td <;> simp [isDictVal] at hhead ⊢
    have htail : ∀ q ∈ rest, isDictVal q.2 = true :=
      fun q hq => h q (List.mem_cons_of_mem _ hq)
    cases hn : dlookup (updSet r "company" (PyVal.str company)) "customerTrunkGroupName" with
    | none =>
      simp only [insTrunks, cands1, pyDict, hn]
      exact ih _ htail
    | some v =>
      cases v with
      | str n =>
        cases hb : pyBlank n with
        | true =>
          simp only [insTrunks, cands1, pyDict, hn, hb, if_true]
          exact ih _ htail
        | false =>
          simp only [insTrunks, cands1, pyDict, hn, hb, Bool.false_eq_true, if_false, insAll]
          exact ih _ htail
      | num q => simp only [insTrunks, cands1, pyDict, hn]; exact ih _ htail
      | bool b => simp only [insTrunks, cands1, pyDict, hn]; exact ih _ htail
      | pynone => simp only [insTrunks, cands1, pyDict, hn]; exact ih _ htail
      | list l => simp only [insTrunks, cands1, pyDict, hn]; exact ih _ htail
      | dict dd => simp only [insTrunks, cands1, pyDict, hn]; exact ih _ htail

/-- When the whole parser loop finishes without raising, the Snapshot is the
fold of the payload's full candidate stream. -/
theorem insCompanies_ok (cos : List (String × PyVal)) (snap snap' : Snap)
    (h : insCompanies cos snap = .ok snap') :
    snap' = insAll (cands cos) snap := by
  induction cos generalizing snap with
  | nil =>
    simp [insCompanies] at h
    simp [cands, insAll, h]
  | cons p rest ih =>
    obtain ⟨company, trunks⟩ := p
    cases trunks with
    | dict tds =>
      cases ht : insTrunks company tds snap with
      | error e => simp [insCompanies, ht] at h
      | ok snap₁ =>
        simp only [insCompanies, cands, ht] at h ⊢
        rw [insAll_append, ← insTrunks_ok company tds snap snap₁ ht]
        exact ih _ h
    | str s => simp only [insCompanies, cands] at h ⊢; exact ih _ h
    | num q => simp only [insCompanies, cands] at h ⊢; exact ih _ h
    | bool b => simp only [insCompanies, cands] at h ⊢; exact ih _ h
    | pynone => simp only [insCompanies, cands] at h ⊢; exact ih _ h
    | list l => simp only [insCompanies, cands] at h ⊢; exact ih _ h

/-- When every record under a mapping-valued company is itself a mapping, the
parser loop cannot raise. -/
theorem insCompanies_of_dicts (cos : List (String × PyVal)) (snap : Snap)
    (h : recordsAreDicts cos = true) :
    insCompanies cos snap = .ok (insAll (cands cos) snap) := by
  induction cos generalizing snap with
  | nil => simp [insCompanies, cands, insAll]
  | cons p rest ih =>
    obtain ⟨company, trunks⟩ := p
    simp only [recordsAreDicts, List.all_cons, Bool.and_eq_true] at h
    have htail : recordsAreDicts rest = true := h.2
    cases trunks with
    | dict tds =>
      have hds : ∀ q ∈ tds, isDictVal q.2 = true := by
        have h1 := h.1
        simp only [List.all_eq_true] at h1
        exact h1
      simp only [insCompanies, cands, insTrunks_of_dicts company tds snap hds]
      rw [insAll_append]
      exact ih _ htail
    | str s => simp only [insCompanies, cands]; exact ih _ htail
    | num q => simp only [insCompanies, cands]; exact ih _ htail
    | bool b => simp only [insCompanies, cands]; exact ih _ htail
    | pynone => simp only [insCompanies, cands]; exact ih _ htail
    | list l => simp only [insCompanies, cands]; exact ih _ htail

/-- A pair is in one company's candidate stream exactly when it arises from a
trunk value of that company: `dict(trunk_data)` succeeded, the trunk is the
result with `company` set, and its name field is a non-blank string equal to
the pair's key. -/
theorem mem_cands1 (company n : String) (t : Dict) (tds : List (String × PyVal)) :
    (n, t) ∈ cands1 company tds ↔
      ∃ tid td d, (tid, td) ∈ tds ∧ pyDict td = Except.ok d ∧
        t = updSet d "company" (PyVal.str company) ∧
        dlookup t "customerTrunkGroupName" = some (PyVal.str n) ∧
        pyBlank n = false := by
  induction tds with
  | nil => simp [cands1]
  | cons q rest ih =>
    obtain ⟨tid₀, td₀⟩ := q
    have liftTail : (n, t) ∈ cands1 company rest →
        ∃ tid td d, (tid, td) ∈ (tid₀, td₀) :: rest ∧ pyDict td = Except.ok d ∧
          t = updSet d "company" (PyVal.str company) ∧
          dlookup t "customerTrunkGroupName" = some (PyVal.str n) ∧
          pyBlank n = false := by
      intro hm
      obtain ⟨tid, td, d, hmem, hc⟩ := ih.mp hm
      exact ⟨tid, td, d, List.mem_cons_of_mem _ hmem, hc⟩
    cases hd : pyDict td₀ with
    | error e =>
      simp only [cands1, hd]
      constructor
      · exact liftTail
      · rintro ⟨tid, td, d, hmem, hok, hc⟩
        rcases List.mem_cons.mp hmem with heq | hmem'
        · rw [Prod.mk.injEq] at heq
          obtain ⟨rfl, rfl⟩ := heq
          rw [hd] at hok
          exact absurd hok (by simp)
        · exact ih.mpr ⟨tid, td, d, hmem', hok, hc⟩
    | ok d₀ =>
      have headData : ∀ (d : Dict), pyDict td₀ = Except.ok d → d = d₀ := by
        intro d hok
        rw [hd] at hok
        exact (Except.ok.injEq .. ▸ hok).symm
      cases hn : dlookup (updSet d₀ "company" (PyVal.str company))
          "customerTrunkGroupName" with
      | none =>
        simp only [cands1, hd, hn]
        constructor
        · exact liftTail
        · rintro ⟨tid, td, d, hmem, hok, ht, hlook, hb⟩
          rcases List.mem_cons.mp hmem with heq | hmem'
          · rw [Prod.mk.injEq] at heq
            obtain ⟨rfl, rfl⟩ := heq
            rw [headData d hok] at ht
            rw [ht] at hlook
            rw [hn] at hlook
            exact absurd hlook (by simp)
          · exact ih.mpr ⟨tid, td, d, hmem', hok, ht, hlook, hb⟩
      | some v =>
        have contraNonStr : (∀ m : String, v ≠ PyVal.str m) →
            ((n, t) ∈ cands1 company rest ↔
              ∃ tid td d, (tid, td) ∈ (tid₀, td₀) :: rest ∧ pyDict td = Except.ok d ∧
                t = updSet d "company" (PyVal.str company) ∧
                dlookup t "customerTrunkGroupName" = some (PyVal.str n) ∧
                pyBlank n = false) := by
          intro hns
          constructor
          · exact liftTail
          · rintro ⟨tid, td, d, hmem, hok, ht, hlook, hb⟩
            rcases List.mem_cons.mp hmem with heq | hmem'
            · rw [Prod.mk.injEq] at heq
              obtain ⟨rfl, rfl⟩ := heq
              rw [headData d hok] at ht
              rw [ht, hn] at hlook
              have hv : v = PyVal.str n := Option.some.injEq .. ▸ hlook
              exact absurd hv (hns n)
            · exact ih.mpr ⟨tid, td, d, hmem', hok, ht, hlook, hb⟩
        cases v with
        | str n₀ =>
          cases hb₀ : pyBlank n₀ with
          | true =>
            simp only [cands1, hd, hn, hb₀, if_true]
            constructor
            · exact liftTail
            · rintro ⟨tid, td, d, hmem, hok, ht, hlook, hb⟩
              rcases List.mem_cons.mp hmem with heq | hmem'
              · rw [Prod.mk.injEq] at heq
                obtain ⟨rfl, rfl⟩ := heq
                rw [headData d hok] at ht
                rw [ht, hn] at hlook
                have hv : PyVal.str n₀ = PyVal.str n := Option.some.injEq .. ▸ hlook
                have hnn : n₀ = n := PyVal.str.injEq .. ▸ hv
                rw [hnn] at hb₀
                rw [hb₀] at hb
                exact absurd hb (by simp)
              · exact ih.mpr ⟨tid, td, d, hmem', hok, ht, hlook, hb⟩
          | false =>
            simp only [cands1, hd, hn, hb₀, Bool.false_eq_true, if_false]
            constructor
            · intro hmem0
              rcases List.mem_cons.mp hmem0 with heq | hm
              · rw [Prod.mk.injEq] at heq
                obtain ⟨rfl, rfl⟩ := heq
                exact ⟨tid₀, td₀, d₀, List.mem_cons_self _ _, hd, rfl, hn, hb₀⟩
              · exact liftTail hm
            · rintro ⟨tid, td, d, hmem, hok, ht, hlook, hb⟩
              rcases List.mem_cons.mp hmem with heq | hmem'
              · rw [Prod.mk.injEq] at heq
                obtain ⟨rfl, rfl⟩ := heq
                rw [headData d hok] at ht
                have hlook' := hlook
                rw [ht, hn] at hlook'
                have hv : PyVal.str n₀ = PyVal.str n := Option.some.injEq .. ▸ hlook'
                have hnn : n₀ = n := PyVal.str.injEq .. ▸ hv
                refine List.mem_cons.mpr (Or.inl ?_)
                rw [Prod.mk.injEq]
                exact ⟨hnn.symm, ht⟩
              · exact List.mem_cons.mpr
                  (Or.inr (ih.mpr ⟨tid, td, d, hmem', hok, ht, hlook, hb⟩))
        | num q₀ =>
          simp only [cands1, hd, hn]
          exact contraNonStr (by intro m h; cases h)
        | bool b₀ =>
          simp only [cands1, hd, hn]
          exact contraNonStr (by intro m h; cases h)
        | pynone =>
          simp only [cands1, hd, hn]
          exact contraNonStr (by intro m h; cases h)
        | list l₀ =>
          simp only [cands1, hd, hn]
          exact contraNonStr (by intro m h; cases h)
        | dict dd₀ =>
          simp only [cands1, hd, hn]
          exact contraNonStr (by intro m h; cases h)

/-- A pair is in the payload's candidate stream exactly when some
mapping-valued company contributes it. -/
theorem mem_cands (cos : List (String × PyVal)) (n : String) (t : Dict) :
    (n, t) ∈ cands cos ↔
      ∃ c tds, (c, PyVal.dict tds) ∈ cos ∧ (n, t) ∈ cands1 c tds := by
  induction cos with
  | nil => simp [cands]
  | cons p rest ih =>
    obtain ⟨company, trunks⟩ := p
    have liftTail : (∃ c tds, (c, PyVal.dict tds) ∈ rest ∧ (n, t) ∈ cands1 c tds) →
        ∃ c tds, (c, PyVal.dict tds) ∈ (company, trunks) :: rest ∧ (n, t) ∈ cands1 c tds := by
      rintro ⟨c, tds, hm, hc⟩
      exact ⟨c, tds, List.mem_cons_of_mem _ hm, hc⟩
    have nonDict : (∀ tds : List (String × PyVal), trunks ≠ PyVal.dict tds) →
        ((n, t) ∈ cands rest ↔
          ∃ c tds, (c, PyVal.dict tds) ∈ (company, trunks) :: rest ∧
            (n, t) ∈ cands1 c tds) := by
      intro hnd
      rw [ih]
      constructor
      · exact liftTail
      · rintro ⟨c, tds, hm, hc⟩
        rcases List.mem_cons.mp hm with heq | hm'
        · rw [Prod.mk.injEq] at heq
          exact absurd heq.2.symm (hnd tds)
        · exact ⟨c, tds, hm', hc⟩
    cases trunks with
    | dict tds₀ =>
      simp only [cands, List.mem_append]
      constructor
      · rintro (hm | hm)
        · exact ⟨company, tds₀, List.mem_cons_self _ _, hm⟩
        · exact liftTail (ih.mp hm)
      · rintro ⟨c, tds, hm, hc⟩
        rcases List.mem_cons.mp hm with heq | hm'
        · rw [Prod.mk.injEq] at heq
          obtain ⟨rfl, heq2⟩ := heq
          have htt : tds = tds₀ := (PyVal.dict.injEq .. ▸ heq2.symm : tds₀ = tds).symm
          rw [htt] at hc
          exact Or.inl hc
        · exact Or.inr (ih.mpr ⟨c, tds, hm', hc⟩)
    | str s => simp only [cands]; exact nonDict (by intro tds h; cases h)
    | num q => simp only [cands]; exact nonDict (by intro tds h; cases h)
    | bool b => simp only [cands]; exact nonDict (by intro tds h; cases h)
    | pynone => simp only [cands]; exact nonDict (by intro tds h; cases h)
    | list l => simp only [cands]; exact nonDict (by intro tds h; cases h)

/-- A value returned by `lastWrite` occurs in the stream under that name. -/
theorem lastWrite_mem (l : List (String × Dict)) (n : String) (t : Dict)
    (h : lastWrite l n = some t) : (n, t) ∈ l := by
  rw [lastWrite_eq_find_reverse] at h
  cases hf : l.reverse.find? (fun p => p.1 == n) with
  | none => rw [hf] at h; simp at h
  | some q =>
    rw [hf] at h
    have hq : q.2 = t := by simpa using h
    have hmem : q ∈ l.reverse := List.mem_of_find?_eq_some hf
    have hpq : q.1 = n := by simpa using List.find?_some hf
    have hqe : (n, t) = q := by
      rw [Prod.ext_iff]
      exact ⟨hpq.symm, hq.symm⟩
    rw [hqe]
    exact List.mem_reverse.mp hmem

/-- The stream writes a name at some point iff some pair carries it. -/
theorem lastWrite_isSome_iff (l : List (String × Dict)) (n : String) :
    (lastWrite l n).isSome ↔ ∃ t, (n, t) ∈ l := by
  constructor
  · intro h
    obtain ⟨t, ht⟩ := Option.isSome_iff_exists.mp h
    exact ⟨t, lastWrite_mem _ _ _ ht⟩
  · rintro ⟨t, ht⟩
    rw [lastWrite_eq_find_reverse]
    have hfs : (l.reverse.find? (fun p => p.1 == n)).isSome :=
      List.find?_isSome.mpr ⟨(n, t), List.mem_reverse.mpr ht, by simp⟩
    obtain ⟨q, hq⟩ := Option.isSome_iff_exists.mp hfs
    rw [hq]
    simp

/-- For a non-empty record found in the section, the first value the check
generator yields is the status result — in every branch, including the one
that raises. -/
theorem check_head (item : String) (sec : Snap) (data : Dict)
    (h1 : dlookup sec item = some data) (h2 : data ≠ []) :
    (check_inteliquent_trunk_groups item sec).outputs.head? = some (statusOutput data) := by
  have he : data.isEmpty = false := by
    cases data with
    | nil => exact absurd rfl h2
    | cons a l => rfl
  simp only [check_inteliquent_trunk_groups, h1, he, Bool.false_eq_true, if_false]
  cases hu : utilValue data with
  | dict u =>
    simp only
    split
    · rfl
    · split
      · rfl
      · rfl
  | str s => rfl
  | num q => rfl
  | bool b => rfl
  | pynone => rfl
  | list l => rfl

/-- In every non-raising branch, the generator's output contains the status
result and each of the three always-emitted metrics, whatever happens
downstream. -/
theorem check_metrics_included (item : String) (sec : Snap) (data : Dict) (u : Dict)
    (out : Output)
    (h1 : dlookup sec item = some data) (h2 : data ≠ [])
    (hu : utilValue data = PyVal.dict u)
    (hm : out ∈ numMetrics u) :
    out ∈ (check_inteliquent_trunk_groups item sec).outputs := by
  have he : data.isEmpty = false := by
    cases data with
    | nil => exact absurd rfl h2
    | cons a l => rfl
  simp only [check_inteliquent_trunk_groups, h1, he, Bool.false_eq_true, if_false, hu]
  split
  · simp [hm]
  · split
    · simp [hm]
    · simp [hm]

/-- The missing-values branch: when one of the three utilization fields reads
as `None` or the capacity is falsy, the run is the status result, the present
metrics, and the UNKNOWN "Utilization: missing" result — nothing more. -/
theorem check_missing (item : String) (sec : Snap) (data : Dict) (u : Dict)
    (h1 : dlookup sec item = some data) (h2 : data ≠ [])
    (hu : utilValue data = PyVal.dict u)
    (hcond : (isNoneV ((dlookup u "inCalls").getD PyVal.pynone) ||
        isNoneV ((dlookup u "outCalls").getD PyVal.pynone) ||
        isNoneV ((dlookup u "capacity").getD PyVal.pynone) ||
        !pyTruthy ((dlookup u "capacity").getD PyVal.pynone)) = true) :
    check_inteliquent_trunk_groups item sec =
      ⟨statusOutput data :: numMetrics u ++
        [Output.result Verdict.unknown "Utilization: missing"], none⟩ := by
  have he : data.isEmpty = false := by
    cases data with
    | nil => exact absurd rfl h2
    | cons a l => rfl
  simp only [check_inteliquent_trunk_groups, h1, he, Bool.false_eq_true, if_false, hu,
    hcond, if_true]

/-- The invalid-values branch: when the three fields pass the missing-values
guard but one of the `float(...)` coercions raises, the run is the status
result, the present metrics, and the UNKNOWN "Utilization: invalid values"
result — nothing more. -/
theorem check_invalid (item : String) (sec : Snap) (data : Dict) (u : Dict)
    (h1 : dlookup sec item = some data) (h2 : data ≠ [])
    (hu : utilValue data = PyVal.dict u)
    (hcond : (isNoneV ((dlookup u "inCalls").getD PyVal.pynone) ||
        isNoneV ((dlookup u "outCalls").getD PyVal.pynone) ||
        isNoneV ((dlookup u "capacity").getD PyVal.pynone) ||
        !pyTruthy ((dlookup u "capacity").getD PyVal.pynone)) = false)
    (hbad : pyFloat ((dlookup u "inCalls").getD PyVal.pynone) = none ∨
        pyFloat ((dlookup u "outCalls").getD PyVal.pynone) = none ∨
        pyFloat ((dlookup u "capacity").getD PyVal.pynone) = none) :
    check_inteliquent_trunk_groups item sec =
      ⟨statusOutput data :: numMetrics u ++
        [Output.result Verdict.unknown "Utilization: invalid values"], none⟩ := by
  have he : data.isEmpty = false := by
    cases data with
    | nil => exact absurd rfl h2
    | cons a l => rfl
  simp only [check_inteliquent_trunk_groups, h1, he, Bool.false_eq_true, if_false, hu,
    hcond]
  rcases hbad with hb | hb | hb
  · simp only [hb]
  · cases hf1 : pyFloat ((dlookup u "inCalls").getD PyVal.pynone) with
    | none => simp only [hf1]
    | some i => simp only [hf1, hb]
  · cases hf1 : pyFloat ((dlookup u "inCalls").getD PyVal.pynone) with
    | none => simp only [hf1]
    | some i =>
      cases hf2 : pyFloat ((dlookup u "outCalls").getD PyVal.pynone) with
      | none => simp only [hf1, hf2]
      | some o => simp only [hf1, hf2, hb]

/-- The successful utilization branch: all three fields numeric with truthy
capacity, so the percentage metric, the classified result, and the trailing
active-sessions metric are produced. -/
theorem check_full (item : String) (sec : Snap) (data : Dict) (u : Dict) (i o c : ℚ)
    (h1 : dlookup sec item = some data) (h2 : data ≠ [])
    (hu : utilValue data = PyVal.dict u)
    (hin : dlookup u "inCalls" = some (PyVal.num i))
    (hout : dlookup u "outCalls" = some (PyVal.num o))
    (hcap : dlookup u "capacity" = some (PyVal.num c))
    (hcnz : c ≠ 0) :
    check_inteliquent_trunk_groups item sec =
      ⟨statusOutput data :: numMetrics u ++
        [Output.metric "utilization_pct" (100 * (i + o) / c),
         Output.result (utilState (100 * (i + o) / c))
           (utilSummary (100 * (i + o) / c) (i + o) c)] ++ activeTail data, none⟩ := by
  have he : data.isEmpty = false := by
    cases data with
    | nil => exact absurd rfl h2
    | cons a l => rfl
  have hc0 : (c == 0) = false := by
    simp [hcnz]
  simp only [check_inteliquent_trunk_groups, h1, he, Bool.false_eq_true, if_false, hu,
    hin, hout, hcap, Option.getD_some, isNoneV, pyTruthy, hc0, Bool.not_false,
    Bool.not_true, Bool.or_false, Bool.false_or, Bool.or_true, Bool.true_or, if_false,
    pyFloat]

/-- Every element of the always-emitted metrics block is a Metric named after
one of the three utilization fields. -/
theorem mem_numMetrics (u : Dict) (out : Output) (h : out ∈ numMetrics u) :
    ∃ nm q, out = Output.metric nm q ∧
      (nm = "inCalls" ∨ nm = "outCalls" ∨ nm = "capacity") := by
  simp only [numMetrics, List.mem_append] at h
  rcases h with (h | h) | h
  · split_ifs at h
    · simp only [List.mem_singleton] at h
      exact ⟨_, _, h, Or.inl rfl⟩
    · simp at h
  · split_ifs at h
    · simp only [List.mem_singleton] at h
      exact ⟨_, _, h, Or.inr (Or.inl rfl)⟩
    · simp at h
  · split_ifs at h
    · simp only [List.mem_singleton] at h
      exact ⟨_, _, h, Or.inr (Or.inr rfl)⟩
    · simp at h

/-- The status evaluation always yields a Result, never a Metric. -/
theorem statusOutput_is_result (data : Dict) :
    ∃ v s, statusOutput data = Output.result v s := by
  unfold statusOutput
  cases dlookup data "status" with
  | none => exact ⟨_, _, rfl⟩
  | some v =>
    cases v with
    | str s => exact ⟨_, _, rfl⟩
    | num q => exact ⟨_, _, rfl⟩
    | bool b => exact ⟨_, _, rfl⟩
    | pynone => exact ⟨_, _, rfl⟩
    | list l => exact ⟨_, _, rfl⟩
    | dict d => exact ⟨_, _, rfl⟩

/-- When the record's `utilization` field holds a mapping, `or {}` passes the
mapping through (an empty mapping is falsy and replaced by the empty dict,
which is the same value). -/
theorem utilValue_of_dict (data : Dict) (u : Dict)
    (hu : dlookup data "utilization" = some (PyVal.dict u)) :
    utilValue data = PyVal.dict u := by
  simp only [utilValue, hu]
  cases u with
  | nil => simp [pyTruthy]
  | cons a l => simp [pyTruthy]

/-- When the record has no `utilization` field, `or {}` produces the empty
mapping. -/
theorem utilValue_of_absent (data : Dict)
    (hu : dlookup data "utilization" = none) :
    utilValue data = PyVal.dict [] := by
  simp [utilValue, hu]

/-- The threshold classification, spelled out: CRIT exactly on pct ≥ 90, WARN
exactly on 80 ≤ pct < 90, OK exactly on pct < 80 (boundaries inclusive). -/
theorem utilState_iff (p : ℚ) :
    (utilState p = Verdict.crit ↔ 90 ≤ p) ∧
    (utilState p = Verdict.warn ↔ 80 ≤ p ∧ p < 90) ∧
    (utilState p = Verdict.ok ↔ p < 80) := by
  unfold utilState
  split_ifs with h90 h80
  · exact ⟨⟨fun _ => h90, fun _ => rfl⟩,
      ⟨fun h => absurd h (by decide), fun h => absurd h90 (not_le.mpr h.2)⟩,
      ⟨fun h => absurd h (by decide),
       fun h => absurd h90 (not_le.mpr (lt_trans h (by norm_num)))⟩⟩
  · exact ⟨⟨fun h => absurd h (by decide), fun h => absurd h h90⟩,
      ⟨fun _ => ⟨h80, not_le.mp h90⟩, fun _ => rfl⟩,
      ⟨fun h => absurd h (by decide), fun h => absurd h80 (not_le.mpr h)⟩⟩
  · exact ⟨⟨fun h => absurd h (by decide), fun h => absurd h h90⟩,
      ⟨fun h => absurd h (by decide), fun h => absurd h.1 h80⟩,
      ⟨fun _ => not_le.mp h80, fun _ => rfl⟩⟩

/-- The head of a filtered list is the first match. -/
theorem head_filter_eq_find {α : Type} (p : α → Bool) (l : List α) :
    (l.filter p).head? = l.find? p := by
  induction l with
  | nil => simp
  | cons a rest ih =>
    by_cases h : p a
    · simp [List.filter_cons, h, List.find?, ih]
    · have h' : p a = false := by simpa using h
      simp [List.filter_cons, h', List.find?, ih]

/-- Filtering: `lastWrite` returns the last element of the matching-key sublist. -/
theorem lastWrite_eq_filter_getLast (l : List (String × Dict)) (n : String) :
    lastWrite l n = ((l.filter (fun p => p.1 == n)).getLast?).map Prod.snd := by
  rw [lastWrite_eq_find_reverse, List.getLast?_eq_head?_reverse,
    ← List.filter_reverse, head_filter_eq_find]

/-- Folding a stream into the empty Snapshot: lookup is precisely the last
write. -/
theorem dlookup_insAll_nil (l : List (String × Dict)) (n : String) :
    dlookup (insAll l []) n = lastWrite l n := by
  rw [dlookup_insAll]
  cases lastWrite l n with
  | none => simp [dlookup]
  | some t => simp

/-- The strict two-level shape implies the no-raise shape. -/
theorem recordsAreDicts_of_wf (cos : List (String × PyVal))
    (h : wfTwoLevel cos = true) : recordsAreDicts cos = true := by
  simp only [wfTwoLevel, List.all_eq_true] at h
  simp only [recordsAreDicts, List.all_eq_true]
  intro p hp
  have := h p hp
  cases hv : p.2 with
  | dict tds => rw [hv] at this; exact this
  | str s => rfl
  | num q => rfl
  | bool b => rfl
  | pynone => rfl
  | list l => rfl

/-- Top-level values that are not mappings contribute nothing: the parser
loop gives the same result once they are filtered away. -/
theorem insCompanies_filter_dicts (cos : List (String × PyVal)) (snap : Snap) :
    insCompanies cos snap =
      insCompanies (cos.filter (fun p => isDictVal p.2)) snap := by
  induction cos generalizing snap with
  | nil => rfl
  | cons p rest ih =>
    obtain ⟨company, trunks⟩ := p
    cases trunks with
    | dict tds =>
      simp only [List.filter_cons, isDictVal, if_true, insCompanies]
      cases insTrunks company tds snap with
      | error e => rfl
      | ok snap₁ => exact ih snap₁
    | str s =>
      simp only [List.filter_cons, isDictVal, Bool.false_eq_true, if_false, insCompanies]
      exact ih snap
    | num q =>
      simp only [List.filter_cons, isDictVal, Bool.false_eq_true, if_false, insCompanies]
      exact ih snap
    | bool b =>
      simp only [List.filter_cons, isDictVal, Bool.false_eq_true, if_false, insCompanies]
      exact ih snap
    | pynone =>
      simp only [List.filter_cons, isDictVal, Bool.false_eq_true, if_false, insCompanies]
      exact ih snap
    | list l =>
      simp only [List.filter_cons, isDictVal, Bool.false_eq_true, if_false, insCompanies]
      exact ih snap

/-- C1: for every checked record, the first value yielded is the status
Result; when the status field is a string the verdict is OK exactly when the
lower-cased, whitespace-free text equals "inservice" and CRITICAL otherwise,
with the summary echoing the original text; when the field is absent or not a
string the verdict is UNKNOWN with summary "Status: missing". -/
theorem C1_status_verdict (sec : Snap) (item : String) (data : Dict)
    (h1 : dlookup sec item = some data) (h2 : data ≠ []) :
    (check_inteliquent_trunk_groups item sec).outputs.head? = some (statusOutput data) ∧
    (∀ s, dlookup data "status" = some (PyVal.str s) →
      statusOutput data =
        Output.result (if _normalize_status s = "inservice" then Verdict.ok else Verdict.crit)
          ("Status: " ++ s)) ∧
    ((∀ s, dlookup data "status" ≠ some (PyVal.str s)) →
      statusOutput data = Output.result Verdict.unknown "Status: missing") := by
  refine ⟨check_head item sec data h1 h2, ?_, ?_⟩
  · intro s hs
    simp [statusOutput, hs]
  · intro hns
    unfold statusOutput
    cases hst : dlookup data "status" with
    | none => rfl
    | some v =>
      cases v with
      | str s => exact absurd hst (hns s)
      | num q => rfl
      | bool b => rfl
      | pynone => rfl
      | list l => rfl
      | dict d => rfl

/-- Witness for C1 at a concrete in-service record. -/
theorem C1_status_verdict_witness :
    dlookup secW1 "T" = some dataW1 ∧ dataW1 ≠ [] ∧
    (check_inteliquent_trunk_groups "T" secW1).outputs.head? = some (statusOutput dataW1) ∧
    statusOutput dataW1 = Output.result Verdict.ok "Status: In Service" := by
  have h := C1_status_verdict secW1 "T" dataW1 rfl (by simp [dataW1])
  refine ⟨rfl, by simp [dataW1], h.1, ?_⟩
  have h2 := h.2.1 "In Service" rfl
  rw [h2]
  rfl

/-- C4: an empty string table, or a blob the decoder rejects, parses to the
empty Snapshot without surfacing an error. -/
theorem C4_parse_failure_empty (decode : String → Option PyVal)
    (st : List (List String))
    (h : st = [] ∨ decode (joinedRaw st) = none) :
    parse_inteliquent_trunk_groups decode st = Except.ok [] := by
  rcases h with rfl | hd
  · rfl
  · unfold parse_inteliquent_trunk_groups
    cases hemp : st.isEmpty with
    | true => simp [hemp]
    | false => simp [hemp, hd]

/-- Witness for C4 on a concrete undecodable blob. -/
theorem C4_parse_failure_empty_witness :
    decodeNone (joinedRaw [["not json"]]) = none ∧
    parse_inteliquent_trunk_groups decodeNone [["not json"]] = Except.ok [] :=
  ⟨rfl, C4_parse_failure_empty decodeNone [["not json"]] (Or.inr rfl)⟩

/-- C3 (code bug): a record whose `utilization` field is a truthy non-mapping
makes the check generator raise `AttributeError` after yielding only the
status result (`"bogus".get` does not exist), and a decoded payload that is
not a mapping makes the parser raise `AttributeError` (`payload.items()` sits
outside the `try` block) — the exception escapes to the caller instead of
becoming an UNKNOWN result. -/
theorem C3_crash_on_nonmapping :
    (check_inteliquent_trunk_groups "T" secBug).raised = some "AttributeError" ∧
    (check_inteliquent_trunk_groups "T" secBug).outputs =
      [Output.result Verdict.ok "Status: In Service"] ∧
    parsePayload (PyVal.list [PyVal.num 1, PyVal.num 2]) =
      Except.error "AttributeError" :=
  ⟨rfl, rfl, rfl⟩

/-- Counterexample to C7 as stated: a record with a present, numeric
`activeSessionCount` but missing utilization data produces no
`active_sessions` observation, because the UNKNOWN utilization verdict
returns from the generator before the final metric line. -/
theorem C7_active_sessions_counterexample :
    dlookup dataC7 "activeSessionCount" = some (PyVal.num 5) ∧
    pyIsNum (PyVal.num 5) = true ∧
    Output.metric "active_sessions" 5 ∉
      (check_inteliquent_trunk_groups "T" secC7).outputs := by
  refine ⟨rfl, rfl, ?_⟩
  intro hmem
  have hout : (check_inteliquent_trunk_groups "T" secC7).outputs =
      [Output.result Verdict.unknown "Status: missing",
       Output.result Verdict.unknown "Utilization: missing"] := rfl
  rw [hout] at hmem
  simp at hmem

/-- C7 (amended): each of `inCalls`, `outCalls`, `capacity` that is present
and numeric in the utilization mapping is emitted as a Metric regardless of
the downstream verdict; the `activeSessionCount` observation, by contrast, is
skipped whenever the utilization verdict is UNKNOWN — for missing values and
for values failing float coercion alike, the generator returns before the
final metric line. -/
theorem C7_observations_amended (sec : Snap) (item : String) (data u : Dict)
    (h1 : dlookup sec item = some data) (h2 : data ≠ [])
    (hu : utilValue data = PyVal.dict u) :
    (∀ v, dlookup u "inCalls" = some v → pyIsNum v = true →
      Output.metric "inCalls" (pyNumVal v) ∈
        (check_inteliquent_trunk_groups item sec).outputs) ∧
    (∀ v, dlookup u "outCalls" = some v → pyIsNum v = true →
      Output.metric "outCalls" (pyNumVal v) ∈
        (check_inteliquent_trunk_groups item sec).outputs) ∧
    (∀ v, dlookup u "capacity" = some v → pyIsNum v = true →
      Output.metric "capacity" (pyNumVal v) ∈
        (check_inteliquent_trunk_groups item sec).outputs) ∧
    ((isNoneV ((dlookup u "inCalls").getD PyVal.pynone) ||
        isNoneV ((dlookup u "outCalls").getD PyVal.pynone) ||
        isNoneV ((dlookup u "capacity").getD PyVal.pynone) ||
        !pyTruthy ((dlookup u "capacity").getD PyVal.pynone)) = true →
      ∀ q, Output.metric "active_sessions" q ∉
        (check_inteliquent_trunk_groups item sec).outputs) ∧
    ((isNoneV ((dlookup u "inCalls").getD PyVal.pynone) ||
        isNoneV ((dlookup u "outCalls").getD PyVal.pynone) ||
        isNoneV ((dlookup u "capacity").getD PyVal.pynone) ||
        !pyTruthy ((dlookup u "capacity").getD PyVal.pynone)) = false →
      (pyFloat ((dlookup u "inCalls").getD PyVal.pynone) = none ∨
        pyFloat ((dlookup u "outCalls").getD PyVal.pynone) = none ∨
        pyFloat ((dlookup u "capacity").getD PyVal.pynone) = none) →
      ∀ q, Output.metric "active_sessions" q ∉
        (check_inteliquent_trunk_groups item sec).outputs) := by
  refine ⟨?_, ?_, ?_, ?_, ?_⟩
  · intro v hv hn
    exact check_metrics_included item sec data u _ h1 h2 hu (by simp [numMetrics, hv, hn])
  · intro v hv hn
    exact check_metrics_included item sec data u _ h1 h2 hu (by simp [numMetrics, hv, hn])
  · intro v hv hn
    exact check_metrics_included item sec data u _ h1 h2 hu (by simp [numMetrics, hv, hn])
  · intro hcond q hmem
    rw [check_missing item sec data u h1 h2 hu hcond] at hmem
    simp only [List.mem_cons, List.mem_append, List.mem_singleton] at hmem
    rcases hmem with (h | h) | h | h
    · obtain ⟨vv, ss, hs⟩ := statusOutput_is_result data
      rw [hs] at h
      exact Output.noConfusion h
    · obtain ⟨nm, qq, heq, hname⟩ := mem_numMetrics u _ h
      injection heq with hn' hq'
      rcases hname with rfl | rfl | rfl <;> exact absurd hn' (by decide)
    · exact Output.noConfusion h
    · simp at h
  · intro hcond hbad q hmem
    rw [check_invalid item sec data u h1 h2 hu hcond hbad] at hmem
    simp only [List.mem_cons, List.mem_append, List.mem_singleton] at hmem
    rcases hmem with (h | h) | h | h
    · obtain ⟨vv, ss, hs⟩ := statusOutput_is_result data
      rw [hs] at h
      exact Output.noConfusion h
    · obtain ⟨nm, qq, heq, hname⟩ := mem_numMetrics u _ h
      injection heq with hn' hq'
      rcases hname with rfl | rfl | rfl <;> exact absurd hn' (by decide)
    · exact Output.noConfusion h
    · simp at h

/-- Witness for the amended C7, covering both UNKNOWN cases: with `inCalls`
present but `outCalls` missing, the `inCalls` metric is still emitted while
no active-sessions metric can be; and with a non-numeric string `inCalls`
beside numeric, truthy values (the invalid-values branch), the `outCalls`
metric is still emitted while the present numeric `activeSessionCount` again
yields no metric. -/
theorem C7_observations_amended_witness :
    utilValue dataW8 = PyVal.dict uW8 ∧
    Output.metric "inCalls" 3 ∈ (check_inteliquent_trunk_groups "T" secW8).outputs ∧
    Output.metric "active_sessions" 3 ∉
      (check_inteliquent_trunk_groups "T" secW8).outputs ∧
    dlookup dataW7i "activeSessionCount" = some (PyVal.num 4) ∧
    Output.metric "outCalls" 1 ∈ (check_inteliquent_trunk_groups "T" secW7i).outputs ∧
    Output.metric "active_sessions" 4 ∉
      (check_inteliquent_trunk_groups "T" secW7i).outputs := by
  have h := C7_observations_amended secW8 "T" dataW8 uW8 rfl (by simp [dataW8])
    (utilValue_of_dict dataW8 uW8 rfl)
  have hi := C7_observations_amended secW7i "T" dataW7i uW7i rfl (by simp [dataW7i])
    (utilValue_of_dict dataW7i uW7i rfl)
  exact ⟨utilValue_of_dict dataW8 uW8 rfl, h.1 (PyVal.num 3) rfl rfl, h.2.2.2.1 rfl 3,
    rfl, hi.2.1 (PyVal.num 1) rfl rfl, hi.2.2.2.2 rfl (Or.inl rfl) 4⟩

/-- C8: when one of the three utilization fields is absent, or the capacity
is falsy, the run contains the UNKNOWN "Utilization: missing" result and no
`utilization_pct` observation. -/
theorem C8_missing_utilization (sec : Snap) (item : String) (data u : Dict)
    (h1 : dlookup sec item = some data) (h2 : data ≠ [])
    (hu : utilValue data = PyVal.dict u)
    (hmiss : dlookup u "inCalls" = none ∨ dlookup u "outCalls" = none ∨
      dlookup u "capacity" = none ∨
      (∃ v, dlookup u "capacity" = some v ∧ pyTruthy v = false)) :
    Output.result Verdict.unknown "Utilization: missing" ∈
      (check_inteliquent_trunk_groups item sec).outputs ∧
    (∀ q, Output.metric "utilization_pct" q ∉
      (check_inteliquent_trunk_groups item sec).outputs) := by
  have hcond : (isNoneV ((dlookup u "inCalls").getD PyVal.pynone) ||
      isNoneV ((dlookup u "outCalls").getD PyVal.pynone) ||
      isNoneV ((dlookup u "capacity").getD PyVal.pynone) ||
      !pyTruthy ((dlookup u "capacity").getD PyVal.pynone)) = true := by
    rcases hmiss with h | h | h | ⟨v, hv, hf⟩
    · simp [h, isNoneV]
    · simp [h, isNoneV]
    · simp [h, isNoneV]
    · simp [hv, hf]
  rw [check_missing item sec data u h1 h2 hu hcond]
  constructor
  · simp
  · intro q hmem
    simp only [List.mem_cons, List.mem_append, List.mem_singleton] at hmem
    rcases hmem with (h | h) | h | h
    · obtain ⟨vv, ss, hs⟩ := statusOutput_is_result data
      rw [hs] at h
      exact Output.noConfusion h
    · obtain ⟨nm, qq, heq, hname⟩ := mem_numMetrics u _ h
      injection heq with hn' hq'
      rcases hname with rfl | rfl | rfl <;> exact absurd hn' (by decide)
    · exact Output.noConfusion h
    · simp at h

/-- Witness for C8: `outCalls` absent. -/
theorem C8_missing_utilization_witness :
    dlookup uW8 "outCalls" = none ∧
    Output.result Verdict.unknown "Utilization: missing" ∈
      (check_inteliquent_trunk_groups "T" secW8).outputs ∧
    Output.metric "utilization_pct" 3 ∉
      (check_inteliquent_trunk_groups "T" secW8).outputs := by
  have h := C8_missing_utilization secW8 "T" dataW8 uW8 rfl (by simp [dataW8])
    (utilValue_of_dict dataW8 uW8 rfl) (Or.inr (Or.inl rfl))
  exact ⟨rfl, h.1, h.2 3⟩

/-- C2: with numeric `inCalls`, `outCalls` and non-zero numeric `capacity`,
the run yields the `utilization_pct` observation and a utilization result
classified from pct = 100·(inCalls+outCalls)/capacity with inclusive
boundaries: CRIT iff pct ≥ 90, WARN iff 80 ≤ pct < 90, OK iff pct < 80. -/
theorem C2_utilization_thresholds (sec : Snap) (item : String) (data u : Dict)
    (i o c : ℚ)
    (h1 : dlookup sec item = some data) (h2 : data ≠ [])
    (hud : dlookup data "utilization" = some (PyVal.dict u))
    (hin : dlookup u "inCalls" = some (PyVal.num i))
    (hout : dlookup u "outCalls" = some (PyVal.num o))
    (hcap : dlookup u "capacity" = some (PyVal.num c))
    (hcnz : c ≠ 0) :
    (check_inteliquent_trunk_groups item sec).outputs =
      statusOutput data :: numMetrics u ++
        [Output.metric "utilization_pct" (100 * (i + o) / c),
         Output.result (utilState (100 * (i + o) / c))
           (utilSummary (100 * (i + o) / c) (i + o) c)] ++ activeTail data ∧
    (utilState (100 * (i + o) / c) = Verdict.crit ↔ 90 ≤ 100 * (i + o) / c) ∧
    (utilState (100 * (i + o) / c) = Verdict.warn ↔
      80 ≤ 100 * (i + o) / c ∧ 100 * (i + o) / c < 90) ∧
    (utilState (100 * (i + o) / c) = Verdict.ok ↔ 100 * (i + o) / c < 80) := by
  have hu := utilValue_of_dict data u hud
  refine ⟨?_, utilState_iff _⟩
  rw [check_full item sec data u i o c h1 h2 hu hin hout hcap hcnz]

/-- Witness for C2 at both boundary examples: 70+10 of 100 is exactly 80.0%
and WARN; 85+5 of 100 is exactly 90.0% and CRIT. -/
theorem C2_utilization_thresholds_witness :
    utilState (100 * ((70 : ℚ) + 10) / 100) = Verdict.warn ∧
    utilState (100 * ((85 : ℚ) + 5) / 100) = Verdict.crit ∧
    (check_inteliquent_trunk_groups "T" secW2).outputs =
      statusOutput dataW2 :: numMetrics uW2 ++
        [Output.metric "utilization_pct" (100 * (70 + 10) / 100),
         Output.result (utilState (100 * (70 + 10) / 100))
           (utilSummary (100 * (70 + 10) / 100) (70 + 10) 100)] ++ activeTail dataW2 ∧
    (check_inteliquent_trunk_groups "T" secW2b).outputs =
      statusOutput dataW2b :: numMetrics uW2b ++
        [Output.metric "utilization_pct" (100 * (85 + 5) / 100),
         Output.result (utilState (100 * (85 + 5) / 100))
           (utilSummary (100 * (85 + 5) / 100) (85 + 5) 100)] ++ activeTail dataW2b := by
  have hA := C2_utilization_thresholds secW2 "T" dataW2 uW2 70 10 100 rfl
    (by simp [dataW2]) rfl rfl rfl rfl (by norm_num)
  have hB := C2_utilization_thresholds secW2b "T" dataW2b uW2b 85 5 100 rfl
    (by simp [dataW2b]) rfl rfl rfl rfl (by norm_num)
  refine ⟨hA.2.2.1.mpr (by norm_num), hB.2.1.mpr (by norm_num), hA.1, hB.1⟩

/-- C5: for a well-formed two-level payload, parsing succeeds, the Snapshot
has an entry for exactly the non-blank string names of second-level records,
and every entry is one such record with its `company` field overwritten by
the top-level key. -/
theorem C5_two_level (cos : List (String × PyVal)) (hwf : wfTwoLevel cos = true) :
    (∃ snap, parsePayload (PyVal.dict cos) = Except.ok snap) ∧
    (∀ snap, parsePayload (PyVal.dict cos) = Except.ok snap →
      (∀ n, (∃ t, dlookup snap n = some t) ↔
        (∃ c tds tid r, (c, PyVal.dict tds) ∈ cos ∧ (tid, PyVal.dict r) ∈ tds ∧
          dlookup (updSet r "company" (PyVal.str c)) "customerTrunkGroupName" =
            some (PyVal.str n) ∧ pyBlank n = false)) ∧
      (∀ n t, dlookup snap n = some t →
        ∃ c tds tid r, (c, PyVal.dict tds) ∈ cos ∧ (tid, PyVal.dict r) ∈ tds ∧
          t = updSet r "company" (PyVal.str c) ∧
          dlookup t "customerTrunkGroupName" = some (PyVal.str n) ∧
          pyBlank n = false)) := by
  have hrd := recordsAreDicts_of_wf cos hwf
  have hok : parsePayload (PyVal.dict cos) = Except.ok (insAll (cands cos) []) :=
    insCompanies_of_dicts cos [] hrd
  have hwf' : ∀ c tds, (c, PyVal.dict tds) ∈ cos → ∀ tid td, (tid, td) ∈ tds →
      ∃ r, td = PyVal.dict r := by
    intro c tds hc tid td htd
    simp only [wfTwoLevel, List.all_eq_true] at hwf
    have h0 := hwf (c, PyVal.dict tds) hc
    have h1 : tds.all (fun q => isDictVal q.2) = true := h0
    rw [List.all_eq_true] at h1
    have h2 := h1 (tid, td) htd
    cases td with
    | dict r => exact ⟨r, rfl⟩
    | str s => exact absurd h2 (by simp [isDictVal])
    | num q => exact absurd h2 (by simp [isDictVal])
    | bool b => exact absurd h2 (by simp [isDictVal])
    | pynone => exact absurd h2 (by simp [isDictVal])
    | list l => exact absurd h2 (by simp [isDictVal])
  refine ⟨⟨_, hok⟩, ?_⟩
  intro snap hsnap
  have hsnap' : snap = insAll (cands cos) [] := by
    rw [hok] at hsnap
    exact (Except.ok.injEq .. ▸ hsnap).symm
  subst hsnap'
  constructor
  · intro n
    rw [← Option.isSome_iff_exists, dlookup_insAll_nil, lastWrite_isSome_iff]
    constructor
    · rintro ⟨t, hmem⟩
      obtain ⟨c, tds, hc, hc1⟩ := (mem_cands cos n t).mp hmem
      obtain ⟨tid, td, d, htd, hokd, ht, hlook, hb⟩ := (mem_cands1 c n t tds).mp hc1
      obtain ⟨r, rfl⟩ := hwf' c tds hc tid td htd
      have hdr : d = r := by
        simp only [pyDict] at hokd
        exact (Except.ok.injEq .. ▸ hokd).symm
      subst hdr
      refine ⟨c, tds, tid, d, hc, htd, ?_, hb⟩
      rw [← ht]
      exact hlook
    · rintro ⟨c, tds, tid, r, hc, htd, hlook, hb⟩
      refine ⟨updSet r "company" (PyVal.str c), ?_⟩
      apply (mem_cands cos n _).mpr
      refine ⟨c, tds, hc, ?_⟩
      apply (mem_cands1 c n _ tds).mpr
      exact ⟨tid, PyVal.dict r, r, htd, rfl, rfl, hlook, hb⟩
  · intro n t hl
    rw [dlookup_insAll_nil] at hl
    have hmem := lastWrite_mem _ _ _ hl
    obtain ⟨c, tds, hc, hc1⟩ := (mem_cands cos n t).mp hmem
    obtain ⟨tid, td, d, htd, hokd, ht, hlook, hb⟩ := (mem_cands1 c n t tds).mp hc1
    obtain ⟨r, rfl⟩ := hwf' c tds hc tid td htd
    have hdr : d = r := by
      simp only [pyDict] at hokd
      exact (Except.ok.injEq .. ▸ hokd).symm
    subst hdr
    exact ⟨c, tds, tid, d, hc, htd, ht, hlook, hb⟩

/-- Witness for C5 on a two-company payload. -/
theorem C5_two_level_witness :
    wfTwoLevel cosW5 = true ∧
    parsePayload (PyVal.dict cosW5) = Except.ok snapW5 ∧
    (∃ t, dlookup snapW5 "A" = some t) := by
  have h := C5_two_level cosW5 rfl
  refine ⟨rfl, rfl, ?_⟩
  exact ((h.2 snapW5 rfl).1 "A").mpr
    ⟨"co1",
     [("t1", PyVal.dict
        [("customerTrunkGroupName", PyVal.str "A"), ("capacity", PyVal.num 10)])],
     "t1",
     [("customerTrunkGroupName", PyVal.str "A"), ("capacity", PyVal.num 10)],
     by simp [cosW5], by simp, rfl, rfl⟩

/-- C6: when the payload (with mapping-shaped records) contains records
sharing one display name, parsing succeeds and the Snapshot maps that name to
exactly one record — the last matching candidate in iteration order. -/
theorem C6_last_writer_wins (cos : List (String × PyVal)) (n : String)
    (hrd : recordsAreDicts cos = true)
    (hdup : 2 ≤ ((cands cos).filter (fun p => p.1 == n)).length) :
    (∃ snap, parsePayload (PyVal.dict cos) = Except.ok snap) ∧
    (∀ snap, parsePayload (PyVal.dict cos) = Except.ok snap →
      dlookup snap n =
        (((cands cos).filter (fun p => p.1 == n)).getLast?).map Prod.snd ∧
      (∃ t, dlookup snap n = some t) ∧
      (snap.map Prod.fst).count n = 1) := by
  have hok : parsePayload (PyVal.dict cos) = Except.ok (insAll (cands cos) []) :=
    insCompanies_of_dicts cos [] hrd
  have hsome : (lastWrite (cands cos) n).isSome := by
    rw [lastWrite_isSome_iff]
    have hne : (cands cos).filter (fun p => p.1 == n) ≠ [] := by
      intro hemp
      rw [hemp] at hdup
      simp at hdup
    obtain ⟨p, hp⟩ := List.exists_mem_of_ne_nil _ hne
    have hp1 : p.1 = n := by simpa using List.of_mem_filter hp
    have hpm : p ∈ cands cos := List.mem_of_mem_filter hp
    refine ⟨p.2, ?_⟩
    have hpe : (n, p.2) = p := by
      rw [Prod.ext_iff]
      exact ⟨hp1.symm, rfl⟩
    rw [hpe]
    exact hpm
  refine ⟨⟨_, hok⟩, ?_⟩
  intro snap hsnap
  have hsnap' : snap = insAll (cands cos) [] := by
    rw [hok] at hsnap
    exact (Except.ok.injEq .. ▸ hsnap).symm
  subst hsnap'
  have hl : dlookup (insAll (cands cos) []) n = lastWrite (cands cos) n :=
    dlookup_insAll_nil _ _
  refine ⟨by rw [hl, lastWrite_eq_filter_getLast], ?_, ?_⟩
  · rw [hl]
    exact Option.isSome_iff_exists.mp hsome
  · have hnd : ((insAll (cands cos) []).map Prod.fst).Nodup :=
      nodup_keys_insAll _ _ (by simp)
    have hmm : n ∈ (insAll (cands cos) []).map Prod.fst := by
      rw [← dlookup_isSome_iff_mem, hl]
      exact hsome
    exact List.count_eq_one_of_mem hnd hmm

/-- Witness for C6 on a payload with two records both named "X". -/
theorem C6_last_writer_wins_witness :
    recordsAreDicts cosW6 = true ∧
    2 ≤ ((cands cosW6).filter (fun p => p.1 == "X")).length ∧
    parsePayload (PyVal.dict cosW6) = Except.ok snapW6 ∧
    dlookup snapW6 "X" = some trunkW6 ∧
    (snapW6.map Prod.fst).count "X" = 1 := by
  have h := C6_last_writer_wins cosW6 "X" rfl (by decide)
  exact ⟨rfl, by decide, rfl, rfl, (h.2 snapW6 rfl).2.2⟩

/-- C9: discovery lists every Snapshot key exactly once, lexicographically
sorted, and two sections whose key multisets agree produce identical
discovery output regardless of iteration order. -/
theorem C9_discovery_sorted (s t : Snap) :
    List.Sorted (fun a b : String => a ≤ b) (discover_inteliquent_trunk_groups s) ∧
    (discover_inteliquent_trunk_groups s).Perm (s.map Prod.fst) ∧
    ((s.map Prod.fst).Nodup →
      ∀ n ∈ s.map Prod.fst, (discover_inteliquent_trunk_groups s).count n = 1) ∧
    ((s.map Prod.fst).Perm (t.map Prod.fst) →
      discover_inteliquent_trunk_groups s = discover_inteliquent_trunk_groups t) := by
  have htrans : ∀ a b c : String, (fun a b : String => decide (a ≤ b)) a b = true →
      (fun a b : String => decide (a ≤ b)) b c = true →
      (fun a b : String => decide (a ≤ b)) a c = true := by
    intro a b c hab hbc
    simp only [decide_eq_true_eq] at hab hbc ⊢
    exact le_trans hab hbc
  have htot : ∀ a b : String, ((fun a b : String => decide (a ≤ b)) a b ||
      (fun a b : String => decide (a ≤ b)) b a) = true := by
    intro a b
    rcases le_total a b with h | h <;> simp [h]
  have hsorted : ∀ r : Snap, List.Sorted (fun a b : String => a ≤ b)
      (discover_inteliquent_trunk_groups r) := by
    intro r
    have hp := List.sorted_mergeSort htrans htot (r.map Prod.fst)
    exact hp.imp (fun h => of_decide_eq_true h)
  have hperm : ∀ r : Snap,
      (discover_inteliquent_trunk_groups r).Perm (r.map Prod.fst) :=
    fun r => List.mergeSort_perm (r.map Prod.fst) _
  haveI : IsAntisymm String (fun a b : String => a ≤ b) :=
    ⟨fun a b h1 h2 => le_antisymm h1 h2⟩
  refine ⟨hsorted s, hperm s, ?_, ?_⟩
  · intro hnd n hn
    have hnd' : (discover_inteliquent_trunk_groups s).Nodup :=
      ((hperm s).nodup_iff).mpr hnd
    have hmem : n ∈ discover_inteliquent_trunk_groups s := ((hperm s).mem_iff).mpr hn
    exact List.count_eq_one_of_mem hnd' hmem
  · intro hp
    have h1 : (discover_inteliquent_trunk_groups s).Perm
        (discover_inteliquent_trunk_groups t) :=
      ((hperm s).trans hp).trans (hperm t).symm
    exact List.eq_of_perm_of_sorted h1 (hsorted s) (hsorted t)

/-- Witness for C9: the same two keys in opposite iteration orders discover
identically, with each key counted once. -/
theorem C9_discovery_sorted_witness :
    (secW9.map Prod.fst).Perm (secW9r.map Prod.fst) ∧
    discover_inteliquent_trunk_groups secW9 = discover_inteliquent_trunk_groups secW9r ∧
    (secW9.map Prod.fst).Nodup ∧
    (discover_inteliquent_trunk_groups secW9).count "a" = 1 := by
  have h := C9_discovery_sorted secW9 secW9r
  refine ⟨by decide, h.2.2.2 (by decide), by decide, h.2.2.1 (by decide) "a" (by decide)⟩

/-- C10: every Snapshot entry of a successful parse arises from a value at
exactly the second level of the payload; top-level non-mapping values
contribute nothing; and a record nested three levels deep — which the unused
`_extract_trunks` helper would have found — is not included. -/
theorem C10_second_level_only (cos : List (String × PyVal)) (snap : Snap)
    (hsnap : parsePayload (PyVal.dict cos) = Except.ok snap) :
    (∀ n t, dlookup snap n = some t →
      ∃ c tds tid td d, (c, PyVal.dict tds) ∈ cos ∧ (tid, td) ∈ tds ∧
        pyDict td = Except.ok d ∧ t = updSet d "company" (PyVal.str c)) ∧
    (parsePayload (PyVal.dict cos) =
      parsePayload (PyVal.dict (cos.filter (fun p => isDictVal p.2)))) ∧
    _extract_trunks none deepPayload =
      [[("customerTrunkGroupName", PyVal.str "X"), ("company", PyVal.str "t")]] ∧
    parsePayload deepPayload = Except.ok [] := by
  have hsnap' : snap = insAll (cands cos) [] := insCompanies_ok cos [] snap hsnap
  subst hsnap'
  refine ⟨?_, insCompanies_filter_dicts cos [], rfl, rfl⟩
  intro n t hl
  rw [dlookup_insAll_nil] at hl
  have hmem := lastWrite_mem _ _ _ hl
  obtain ⟨c, tds, hc, hc1⟩ := (mem_cands cos n t).mp hmem
  obtain ⟨tid, td, d, htd, hokd, ht, hlook, hb⟩ := (mem_cands1 c n t tds).mp hc1
  exact ⟨c, tds, tid, td, d, hc, htd, hokd, ht⟩

/-- Witness for C10 on the two-company payload: its "A" entry is traced back
to a second-level record. -/
theorem C10_second_level_only_witness :
    parsePayload (PyVal.dict cosW5) = Except.ok snapW5 ∧
    (∃ c tds tid td d, (c, PyVal.dict tds) ∈ cosW5 ∧ (tid, td) ∈ tds ∧
      pyDict td = Except.ok d ∧ trunkW5A = updSet d "company" (PyVal.str c)) := by
  refine ⟨rfl, ?_⟩
  exact (C10_second_level_only cosW5 snapW5 rfl).1 "A" trunkW5A rfl
